import Mathlib

/-!
Verification of the makunutype repository: the leaderboard submission
protocol (Express server, `POST /api/session-score` and the two
`/api/leaderboard` handlers) and the typing-session state machine plus
scoring engine (`App.tsx`).

Server model: the Express server keeps, per browser session, a cached
score in `req.session.lastScore` and a MySQL `leaderboard` table.  We
model the state visible to one session as `ServerState` (its own
`lastScore` cache plus the shared table as a list of rows).  The
captcha verifier (Google reCAPTCHA via axios) and the database insert
are external effects; they enter the model as an oracle function and a
success flag for a given request.
-/

namespace Makunu

/-- A cached pending score, as stored by the `POST /api/session-score`
handler: `req.session.lastScore = { wpm, raw_wpm, accuracy, mode, config }`.
The handler performs no validation, it stores the request-body fields. -/
structure PendingScore where
  wpm : Int
  raw_wpm : Int
  accuracy : Int
  mode : String
  config : Int
deriving DecidableEq, Repr

/-- A row of the `leaderboard` table, as inserted by the
`POST /api/leaderboard` handler (`id` is positional, `created_at` is a
database default and not modelled). -/
structure ScoreRecord where
  name : String
  wpm : Int
  raw_wpm : Int
  accuracy : Int
  mode : String
  config : Int
deriving DecidableEq, Repr

/-- Server state visible to one browser session: its session cache and
the shared `leaderboard` table. -/
structure ServerState where
  lastScore : Option PendingScore
  db : List ScoreRecord
deriving DecidableEq, Repr

/-- Body of a `POST /api/leaderboard` request.  The handler destructures
only `name` and `recaptchaToken`; a client may also place score fields
in the body, which we carry to state that they are ignored. -/
structure ClaimRequest where
  name : String
  recaptchaToken : Option String
  wpm : Option Int
  raw_wpm : Option Int
  accuracy : Option Int
deriving DecidableEq, Repr

/-- Outcome of the external captcha verification call
(`axios.post` to the Google siteverify endpoint):
`response.data.success` true / false, or a thrown network error. -/
inductive CaptchaResult where
  | success
  | failure
  | netError
deriving DecidableEq, Repr

/-- Outcome of a `POST /api/leaderboard` request. -/
inductive ClaimOutcome where
  | created (id : Nat)
  | noPending
  | captchaMissing
  | captchaFailed
  | captchaError
  | insertError
deriving DecidableEq, Repr

/-- HTTP status code returned for each outcome by the handler. -/
def httpStatus : ClaimOutcome → Nat
  | .created _ => 201
  | .noPending => 400
  | .captchaMissing => 400
  | .captchaFailed => 400
  | .captchaError => 500
  | .insertError => 500

/-- Whether an outcome is the success (201, row inserted) outcome. -/
def ClaimOutcome.isCreated : ClaimOutcome → Bool
  | .created _ => true
  | _ => false

/-- JavaScript truthiness of an optional string (`if (secretKey)` /
`if (!recaptchaToken)`): absent or empty is falsy. -/
def truthy : Option String → Bool
  | none => false
  | some s => !s.isEmpty

/-- The `POST /api/session-score` handler: overwrite the session's
`lastScore` with the body fields and answer success. -/
def cacheScore (st : ServerState) (body : PendingScore) : ServerState × Bool :=
  ({ st with lastScore := some body }, true)

/-- The `POST /api/leaderboard` handler.  `secretKey` is the
`RECAPTCHA_SECRET_KEY` environment value, `verify` the external captcha
verifier (secret, token ↦ result), `dbOk` whether the insert query
succeeds.  Mirrors the handler: 400 when no `lastScore` is cached;
captcha checked only when a secret is configured; on success the row is
built from the cached score and the caller-supplied `name`, then the
cached score is deleted. -/
def claimScore (secretKey : Option String) (verify : String → String → CaptchaResult)
    (dbOk : Bool) (st : ServerState) (req : ClaimRequest) : ServerState × ClaimOutcome :=
  match st.lastScore with
  | none => (st, .noPending)
  | some sc =>
    let gate : Option ClaimOutcome :=
      if truthy secretKey then
        if ¬ truthy req.recaptchaToken then some .captchaMissing
        else
          match verify (secretKey.getD "") (req.recaptchaToken.getD "") with
          | .success => none
          | .failure => some .captchaFailed
          | .netError => some .captchaError
      else none
    match gate with
    | some err => (st, err)
    | none =>
      if dbOk then
        ({ lastScore := none,
           db := st.db ++ [⟨req.name, sc.wpm, sc.raw_wpm, sc.accuracy, sc.mode, sc.config⟩] },
         .created (st.db.length + 1))
      else (st, .insertError)

/-- On a state with a cached score, a claim either succeeds (row
appended, cache cleared, outcome `created`) or fails leaving the state
untouched with a non-`created` outcome. -/
lemma claimScore_pending_cases (secretKey : Option String)
    (verify : String → String → CaptchaResult) (dbOk : Bool)
    (sc : PendingScore) (db : List ScoreRecord) (req : ClaimRequest) :
    claimScore secretKey verify dbOk ⟨some sc, db⟩ req
        = (⟨none, db ++ [⟨req.name, sc.wpm, sc.raw_wpm, sc.accuracy, sc.mode, sc.config⟩]⟩,
           .created (db.length + 1))
      ∨ ((claimScore secretKey verify dbOk ⟨some sc, db⟩ req).1 = ⟨some sc, db⟩
          ∧ (claimScore secretKey verify dbOk ⟨some sc, db⟩ req).2.isCreated = false) := by
  obtain h1 | h1 := Bool.eq_false_or_eq_true (truthy secretKey)
  · obtain h2 | h2 := Bool.eq_false_or_eq_true (truthy req.recaptchaToken)
    · cases hv : verify (secretKey.getD "") (req.recaptchaToken.getD "") <;>
        cases dbOk <;> simp [claimScore, h1, h2, hv, ClaimOutcome.isCreated]
    · right
      simp [claimScore, h1, h2, ClaimOutcome.isCreated]
  · cases dbOk <;> simp [claimScore, h1, ClaimOutcome.isCreated]

/-- A claim against a state with no cached score fails with
`noPending` and leaves the state unchanged. -/
lemma claimScore_absent (secretKey : Option String)
    (verify : String → String → CaptchaResult) (dbOk : Bool)
    (db : List ScoreRecord) (req : ClaimRequest) :
    claimScore secretKey verify dbOk ⟨none, db⟩ req = (⟨none, db⟩, .noPending) := rfl

/-- Claim C1: a claim with no cached PendingScore fails with
`NoPendingScore` (HTTP 400) and changes nothing; after a single
`cacheScore`, two sequential claims succeed at most once, and after a
successful first claim the second fails with `NoPendingScore`. -/
theorem claim_requires_and_consumes_pending
    (secretKey : Option String) (verify : String → String → CaptchaResult)
    (d0 d1 d2 : Bool) (st : ServerState) (ps : PendingScore)
    (r0 r1 r2 : ClaimRequest) :
    (claimScore secretKey verify d0 { st with lastScore := none } r0
        = ({ st with lastScore := none }, .noPending)
      ∧ httpStatus .noPending = 400)
    ∧ ((claimScore secretKey verify d1 (cacheScore st ps).1 r1).2.isCreated = true →
        (claimScore secretKey verify d2
            (claimScore secretKey verify d1 (cacheScore st ps).1 r1).1 r2).2 = .noPending)
    ∧ ¬ ((claimScore secretKey verify d1 (cacheScore st ps).1 r1).2.isCreated = true
        ∧ (claimScore secretKey verify d2
            (claimScore secretKey verify d1 (cacheScore st ps).1 r1).1 r2).2.isCreated = true) := by
  have hcache : (cacheScore st ps).1 = (⟨some ps, st.db⟩ : ServerState) := rfl
  have key : (claimScore secretKey verify d1 (cacheScore st ps).1 r1).2.isCreated = true →
      (claimScore secretKey verify d2
          (claimScore secretKey verify d1 (cacheScore st ps).1 r1).1 r2).2 = .noPending := by
    intro h
    rw [hcache] at h ⊢
    rcases claimScore_pending_cases secretKey verify d1 ps st.db r1 with hc | ⟨_, hnc⟩
    · rw [hc]
      exact congrArg Prod.snd (claimScore_absent secretKey verify d2 _ r2)
    · rw [hnc] at h
      exact absurd h (by simp)
  refine ⟨⟨rfl, rfl⟩, key, ?_⟩
  rintro ⟨h1, h2⟩
  rw [key h1] at h2
  exact absurd h2 (by simp [ClaimOutcome.isCreated])

/-- Witness for C1 at concrete inputs: with no captcha secret and a
working database, the first claim after one cacheScore succeeds, and
the second then fails with `NoPendingScore`. -/
theorem claim_requires_and_consumes_pending_witness :
    (claimScore none (fun _ _ => .success) true
        (claimScore none (fun _ _ => .success) true
          (cacheScore ⟨none, []⟩ ⟨40, 45, 98, "words", 10⟩).1
          ⟨"a", none, none, none, none⟩).1
        ⟨"b", none, none, none, none⟩).2 = .noPending :=
  (claim_requires_and_consumes_pending none (fun _ _ => .success) true true true
    ⟨none, []⟩ ⟨40, 45, 98, "words", 10⟩
    ⟨"z", none, none, none, none⟩ ⟨"a", none, none, none, none⟩
    ⟨"b", none, none, none, none⟩).2.1 (by decide)

/-- Claim C2: the result of a claim depends only on the cached
PendingScore and the caller-supplied `name` and captcha token; score
fields placed in the claim request body are ignored. -/
theorem claim_ignores_body_scores
    (secretKey : Option String) (verify : String → String → CaptchaResult)
    (dbOk : Bool) (st : ServerState) (r1 r2 : ClaimRequest)
    (hn : r1.name = r2.name) (ht : r1.recaptchaToken = r2.recaptchaToken) :
    claimScore secretKey verify dbOk st r1 = claimScore secretKey verify dbOk st r2 := by
  simp only [claimScore, hn, ht]

/-- Witness for C2: two claim bodies agreeing on name and token but
with different wpm / raw_wpm / accuracy fields produce the same result. -/
theorem claim_ignores_body_scores_witness :
    claimScore none (fun _ _ => .success) true
        ⟨some ⟨40, 45, 98, "words", 10⟩, []⟩
        ⟨"a", none, some 40, some 45, some 98⟩
      = claimScore none (fun _ _ => .success) true
        ⟨some ⟨40, 45, 98, "words", 10⟩, []⟩
        ⟨"a", none, some 999, some 999, some 100⟩ :=
  claim_ignores_body_scores none (fun _ _ => .success) true
    ⟨some ⟨40, 45, 98, "words", 10⟩, []⟩
    ⟨"a", none, some 40, some 45, some 98⟩
    ⟨"a", none, some 999, some 999, some 100⟩ rfl rfl

/-- Claim C9: the captcha is enforced exactly when a secret is
configured.  With no secret, a claim on a cached score succeeds with no
token at all; with a secret, a missing token or a verifier rejection is
a 400 failure that inserts nothing and keeps the state unchanged. -/
theorem captcha_enforced_iff_secret
    (verify : String → String → CaptchaResult) (dbOk : Bool)
    (key tok : String) (sc : PendingScore) (db : List ScoreRecord)
    (req : ClaimRequest) :
    (claimScore none verify true ⟨some sc, db⟩ { req with recaptchaToken := none }
        = (⟨none, db ++ [⟨req.name, sc.wpm, sc.raw_wpm, sc.accuracy, sc.mode, sc.config⟩]⟩,
           .created (db.length + 1)))
    ∧ (truthy (some key) = true →
        claimScore (some key) verify dbOk ⟨some sc, db⟩ { req with recaptchaToken := none }
          = (⟨some sc, db⟩, .captchaMissing) ∧ httpStatus .captchaMissing = 400)
    ∧ (truthy (some key) = true → truthy (some tok) = true →
        verify key tok = .failure →
        claimScore (some key) verify dbOk ⟨some sc, db⟩ { req with recaptchaToken := some tok }
          = (⟨some sc, db⟩, .captchaFailed) ∧ httpStatus .captchaFailed = 400) := by
  refine ⟨?_, fun hk => ⟨?_, rfl⟩, fun hk ht hv => ⟨?_, rfl⟩⟩
  · simp [claimScore, truthy]
  · simp only [truthy, Bool.not_eq_true'] at hk
    simp [claimScore, truthy, hk]
  · simp only [truthy, Bool.not_eq_true'] at hk ht
    simp [claimScore, truthy, hk, ht, hv]

/-- Witness for C9 at concrete inputs: secret configured, token
present but rejected by the verifier, so the claim fails and the cached
score survives. -/
theorem captcha_enforced_iff_secret_witness :
    claimScore (some "k") (fun _ _ => .failure) true
        ⟨some ⟨40, 45, 98, "words", 10⟩, []⟩
        ⟨"a", some "t", none, none, none⟩
      = (⟨some ⟨40, 45, 98, "words", 10⟩, []⟩, .captchaFailed)
    ∧ httpStatus .captchaFailed = 400 :=
  (captcha_enforced_iff_secret (fun _ _ => .failure) true "k" "t"
      ⟨40, 45, 98, "words", 10⟩ [] ⟨"a", some "t", none, none, none⟩).2.2
    (by decide) (by decide) rfl

/-- Claim C10: claimScore is atomic with respect to the cache.  Any
non-`created` outcome leaves the whole state (cache and table)
unchanged, so the score remains claimable; the cache is cleared exactly
on the successful-insert path, together with the appended row. -/
theorem claim_failure_preserves_cache
    (secretKey : Option String) (verify : String → String → CaptchaResult)
    (dbOk : Bool) (st : ServerState) (req : ClaimRequest) :
    ((claimScore secretKey verify dbOk st req).2.isCreated = false →
      (claimScore secretKey verify dbOk st req).1 = st)
    ∧ (∀ id, (claimScore secretKey verify dbOk st req).2 = .created id →
        (claimScore secretKey verify dbOk st req).1.lastScore = none
        ∧ ∃ sc, st.lastScore = some sc
            ∧ (claimScore secretKey verify dbOk st req).1.db
              = st.db ++ [⟨req.name, sc.wpm, sc.raw_wpm, sc.accuracy, sc.mode, sc.config⟩]) := by
  obtain ⟨ls, db⟩ := st
  cases ls with
  | none =>
    rw [claimScore_absent]
    exact ⟨fun _ => rfl, fun id h => by simp at h⟩
  | some sc =>
    rcases claimScore_pending_cases secretKey verify dbOk sc db req with hc | ⟨hst, hnc⟩
    · rw [hc]
      refine ⟨fun h => by simp [ClaimOutcome.isCreated] at h, fun id h => ⟨rfl, sc, rfl, rfl⟩⟩
    · refine ⟨fun _ => hst, fun id h => ?_⟩
      rw [h] at hnc
      simp [ClaimOutcome.isCreated] at hnc

/-- Witness for C10: a concrete failing claim (missing token with a
configured secret) leaves the cached score in place. -/
theorem claim_failure_preserves_cache_witness :
    (claimScore (some "k") (fun _ _ => .success) true
        ⟨some ⟨40, 45, 98, "words", 10⟩, []⟩ ⟨"a", none, none, none, none⟩).2.isCreated = false
    ∧ (claimScore (some "k") (fun _ _ => .success) true
        ⟨some ⟨40, 45, 98, "words", 10⟩, []⟩ ⟨"a", none, none, none, none⟩).1
      = ⟨some ⟨40, 45, 98, "words", 10⟩, []⟩ :=
  ⟨by decide,
   (claim_failure_preserves_cache (some "k") (fun _ _ => .success) true
      ⟨some ⟨40, 45, 98, "words", 10⟩, []⟩ ⟨"a", none, none, none, none⟩).1 (by decide)⟩

/-!
Client model (`App.tsx`).  A typing session is the React state owned by
the `App` component; keystroke handling (`handleKeyDown`), restart
(`resetTest`), the countdown tick and `calculateStats` become pure
functions on a `Session` value.  Timestamps (`Date.now()`) are integer
milliseconds; the JavaScript floating-point arithmetic of
`calculateStats` is modelled exactly over `ℚ` (`Math.round` and
Mathlib's `round` both round halves up).
-/

/-- Letter status, `LetterState.status` in the source. -/
inductive LetterStatus where
  | correct
  | incorrect
  | extra
  | none
deriving DecidableEq, Repr

/-- `LetterState`: a display character and its status. -/
structure Letter where
  char : Char
  status : LetterStatus
deriving DecidableEq, Repr

/-- `WordState`: the target text and the per-letter display states. -/
structure Word where
  original : List Char
  letters : List Letter
deriving DecidableEq, Repr

/-- Time or word-count test mode. -/
inductive TestMode where
  | time
  | words
deriving DecidableEq, Repr

/-- The game state of `App.tsx`: mode and config, the sampled words,
the word/letter cursors, the typed buffer for the current word
(`inputValue`), timestamps, the countdown value and the finished and
window-focus flags. -/
structure Session where
  testMode : TestMode
  testConfig : Nat
  words : List Word
  currentWordIndex : Nat
  currentLetterIndex : Nat
  inputValue : List Char
  startTime : Option Int
  endTime : Option Int
  timeLeft : Nat
  isFinished : Bool
  isFocused : Bool
deriving DecidableEq, Repr

/-- Letter-status counters accumulated by `calculateStats`. -/
structure Counts where
  correct : Nat
  incorrect : Nat
  extra : Nat
  missed : Nat
deriving DecidableEq, Repr

/-- One step of the counting loop in `calculateStats`: classify one
letter of the word at index `wIdx`, `none` letters counting as missed
only in words strictly before the cursor. -/
def tallyLetter (cwi wIdx : Nat) (a : Counts) (l : Letter) : Counts :=
  match l.status with
  | .correct => { a with correct := a.correct + 1 }
  | .incorrect => { a with incorrect := a.incorrect + 1 }
  | .extra => { a with extra := a.extra + 1 }
  | .none => if wIdx < cwi then { a with missed := a.missed + 1 } else a

/-- Inner `forEach` of the counting loop: all letters of one word. -/
def tallyLetters (cwi wIdx : Nat) : List Letter → Counts → Counts
  | [], a => a
  | l :: ls, a => tallyLetters cwi wIdx ls (tallyLetter cwi wIdx a l)

/-- Outer `forEach` of the counting loop, carrying the word index;
words beyond the cursor (`wIdx ≤ currentWordIndex` fails) are skipped. -/
def tallyWords (cwi : Nat) : Nat → List Word → Counts → Counts
  | _, [], a => a
  | wIdx, w :: ws, a =>
      tallyWords cwi (wIdx + 1) ws
        (if wIdx ≤ cwi then tallyLetters cwi wIdx w.letters a else a)

/-- The letter-status counts of `calculateStats`. -/
def tally (words : List Word) (cwi : Nat) : Counts :=
  tallyWords cwi 0 words ⟨0, 0, 0, 0⟩

/-- `durationInMinutes` of `calculateStats`: configured seconds in time
mode, measured elapsed milliseconds over 1000 in words mode, divided
by 60. -/
def durationInMinutes (s : Session) (st et : Int) : ℚ :=
  (if s.testMode = .time then (s.testConfig : ℚ) else ((et : ℚ) - (st : ℚ)) / 1000) / 60

/-- The results of `calculateStats`. -/
structure Stats where
  wpm : Int
  rawWpm : Int
  accuracy : Int
deriving DecidableEq, Repr

/-- `totalPossible` of `calculateStats`: every letter attempted, missed
or required, plus one space per committed word boundary. -/
def totalPossible (s : Session) : Nat :=
  (tally s.words s.currentWordIndex).correct
    + (tally s.words s.currentWordIndex).incorrect
    + (tally s.words s.currentWordIndex).extra
    + (tally s.words s.currentWordIndex).missed
    + s.currentWordIndex

/-- `calculateStats`: `none` when either timestamp is unset (the early
`return`), otherwise the wpm, raw wpm and accuracy values set into the
component state. -/
def calculateStats (s : Session) : Option Stats :=
  match s.startTime, s.endTime with
  | some st, some et =>
    let c := tally s.words s.currentWordIndex
    let spaces := s.currentWordIndex
    let dur := durationInMinutes s st et
    let wpm := round ((((c.correct + spaces : Nat) : ℚ) / 5) / dur)
    let rawWpm := round ((((c.correct + c.incorrect + c.extra + spaces : Nat) : ℚ) / 5) / dur)
    let tot := c.correct + c.incorrect + c.extra + c.missed + spaces
    let accuracy :=
      if tot > 0 then round ((((c.correct + spaces : Nat) : ℚ) / (tot : ℚ)) * 100) else 0
    some ⟨wpm, rawWpm, accuracy⟩
  | _, _ => Option.none

/-- Modelled from the spec (§4.4): letters with a given status counted
over `words[0..wordCursor]` inclusive. -/
def specStatusCount (s : Session) (st : LetterStatus) : Nat :=
  ((s.words.take (s.currentWordIndex + 1)).map
      fun w => w.letters.countP fun l => decide (l.status = st)).sum

/-- Modelled from the spec (§4.4): `durationMinutes = (mode == time ?
config : (endTime-startTime)/1000) / 60`. -/
def specDurationMinutes (s : Session) (st et : Int) : ℚ :=
  (if s.testMode = .time then (s.testConfig : ℚ) else ((et : ℚ) - (st : ℚ)) / 1000) / 60

/-- Modelled from the spec (§4.4): `wpm = round((correct + spaces) / 5 /
durationMinutes)` with `spaces = wordCursor`. -/
def specWpm (s : Session) (st et : Int) : Int :=
  round (((specStatusCount s .correct + s.currentWordIndex : Nat) : ℚ) / 5
    / specDurationMinutes s st et)

/-- Modelled from the spec (§4.4): `rawWpm = round((correct + incorrect
+ extra + spaces) / 5 / durationMinutes)`. -/
def specRawWpm (s : Session) (st et : Int) : Int :=
  round (((specStatusCount s .correct + specStatusCount s .incorrect
      + specStatusCount s .extra + s.currentWordIndex : Nat) : ℚ) / 5
    / specDurationMinutes s st et)

/-- The inner counting loop adds, per status, the number of letters
with that status (missed only when the word is strictly before the
cursor). -/
lemma tallyLetters_eq (cwi wIdx : Nat) (ls : List Letter) (a : Counts) :
    tallyLetters cwi wIdx ls a
      = ⟨a.correct + ls.countP (fun l => decide (l.status = .correct)),
         a.incorrect + ls.countP (fun l => decide (l.status = .incorrect)),
         a.extra + ls.countP (fun l => decide (l.status = .extra)),
         a.missed + if wIdx < cwi then ls.countP (fun l => decide (l.status = .none)) else 0⟩ := by
  induction ls generalizing a with
  | nil => simp [tallyLetters]
  | cons l ls ih =>
    rw [tallyLetters, ih]
    by_cases hw : wIdx < cwi <;>
      cases h : l.status <;>
        simp [tallyLetter, h, hw, List.countP_cons, Counts.mk.injEq] <;> omega

/-- The outer counting loop starting at word index `i` adds the counts
of the words `i ≤ wIdx ≤ cwi`, i.e. of `take (cwi + 1 - i)`. -/
lemma tallyWords_eq (cwi : Nat) (ws : List Word) (i : Nat) (a : Counts) :
    tallyWords cwi i ws a
      = ⟨a.correct + ((ws.take (cwi + 1 - i)).map
            fun w => w.letters.countP fun l => decide (l.status = .correct)).sum,
         a.incorrect + ((ws.take (cwi + 1 - i)).map
            fun w => w.letters.countP fun l => decide (l.status = .incorrect)).sum,
         a.extra + ((ws.take (cwi + 1 - i)).map
            fun w => w.letters.countP fun l => decide (l.status = .extra)).sum,
         tallyWords cwi i ws a |>.missed⟩ := by
  induction ws generalizing i a with
  | nil => simp [tallyWords]
  | cons w ws ih =>
    rw [tallyWords, ih]
    by_cases h : i ≤ cwi
    · have h1 : cwi + 1 - i = (cwi - i) + 1 := by omega
      have h2 : cwi + 1 - (i + 1) = cwi - i := by omega
      rw [if_pos h, tallyLetters_eq, h1, h2]
      simp only [List.take_succ_cons, List.map_cons, List.sum_cons, Counts.mk.injEq]
      refine ⟨by omega, by omega, by omega, ?_⟩
      try rfl
      try trivial
    · have h1 : cwi + 1 - i = 0 := by omega
      have h2 : cwi + 1 - (i + 1) = 0 := by omega
      rw [if_neg h, h1, h2]
      simp

/-- The code's correct counter agrees with the specification count. -/
lemma tally_correct_eq (s : Session) :
    (tally s.words s.currentWordIndex).correct = specStatusCount s .correct := by
  rw [tally, tallyWords_eq]
  simp [specStatusCount]

/-- The code's incorrect counter agrees with the specification count. -/
lemma tally_incorrect_eq (s : Session) :
    (tally s.words s.currentWordIndex).incorrect = specStatusCount s .incorrect := by
  rw [tally, tallyWords_eq]
  simp [specStatusCount]

/-- The code's extra counter agrees with the specification count. -/
lemma tally_extra_eq (s : Session) :
    (tally s.words s.currentWordIndex).extra = specStatusCount s .extra := by
  rw [tally, tallyWords_eq]
  simp [specStatusCount]

/-- Unfolding of `calculateStats` for a session with both timestamps
set. -/
lemma calculateStats_eq (s : Session) (st et : Int)
    (h1 : s.startTime = some st) (h2 : s.endTime = some et) :
    calculateStats s = some
      ⟨round ((((tally s.words s.currentWordIndex).correct + s.currentWordIndex : Nat) : ℚ) / 5
          / durationInMinutes s st et),
       round ((((tally s.words s.currentWordIndex).correct
            + (tally s.words s.currentWordIndex).incorrect
            + (tally s.words s.currentWordIndex).extra + s.currentWordIndex : Nat) : ℚ) / 5
          / durationInMinutes s st et),
       if totalPossible s > 0 then
         round ((((tally s.words s.currentWordIndex).correct + s.currentWordIndex : Nat) : ℚ)
            / ((totalPossible s : Nat) : ℚ) * 100)
       else 0⟩ := by
  rw [calculateStats, h1, h2]
  rfl

/-- Claim C3: for a finished session (both timestamps set) the computed
wpm and raw wpm equal the reference formulas of the specification, with
`spaces = wordCursor` and `durationMinutes` as configured seconds in
time mode and measured elapsed seconds in words mode, over 60. -/
theorem calculateStats_matches_spec (s : Session) (st et : Int)
    (h1 : s.startTime = some st) (h2 : s.endTime = some et) :
    ∃ stats, calculateStats s = some stats
      ∧ stats.wpm = specWpm s st et ∧ stats.rawWpm = specRawWpm s st et := by
  refine ⟨_, calculateStats_eq s st et h1 h2, ?_, ?_⟩
  · show round _ = specWpm s st et
    rw [specWpm, tally_correct_eq s]
    rfl
  · show round _ = specRawWpm s st et
    rw [specRawWpm, tally_correct_eq s, tally_incorrect_eq s, tally_extra_eq s]
    rfl

/-- A concrete finished words-mode session: the word "ab" typed
correctly in six seconds. -/
def sampleOk : Session :=
  ⟨.words, 1, [⟨['a', 'b'], [⟨'a', .correct⟩, ⟨'b', .correct⟩]⟩], 0, 2,
    ['a', 'b'], some 0, some 6000, 0, true, true⟩

/-- A concrete finished words-mode session: the word "ab" typed with
one incorrect letter in six seconds. -/
def sampleErr : Session :=
  ⟨.words, 1, [⟨['a', 'b'], [⟨'a', .correct⟩, ⟨'b', .incorrect⟩]⟩], 0, 2,
    ['a', 'x'], some 0, some 6000, 0, true, true⟩

/-- Witness for C3: a two-letter word typed correctly in words mode in
six seconds gives wpm = rawWpm = 4. -/
theorem calculateStats_matches_spec_witness :
    (∃ stats, calculateStats sampleOk = some stats
      ∧ stats.wpm = specWpm sampleOk 0 6000 ∧ stats.rawWpm = specRawWpm sampleOk 0 6000)
    ∧ calculateStats sampleOk = some ⟨4, 4, 100⟩ :=
  ⟨calculateStats_matches_spec sampleOk 0 6000 rfl rfl,
   by
    rw [calculateStats_eq sampleOk 0 6000 rfl rfl]
    simp only [sampleOk, tally, tallyWords, tallyLetters, tallyLetter, totalPossible,
      durationInMinutes]
    norm_num [if_neg (show ¬ (TestMode.words = TestMode.time) by decide)]⟩

/-- `round` is monotone. -/
lemma round_le_round {x y : ℚ} (h : x ≤ y) : round x ≤ round y := by
  rw [round_eq, round_eq]
  exact Int.floor_le_floor (by linarith)

/-- Claim C5: for a finished session the accuracy is an integer in
`[0, 100]`; the numerator never exceeds `totalPossible`, and a session
with `totalPossible = 0` gets accuracy `0` from the explicit guard. -/
theorem accuracy_in_range (s : Session) (st et : Int)
    (h1 : s.startTime = some st) (h2 : s.endTime = some et) :
    (tally s.words s.currentWordIndex).correct + s.currentWordIndex ≤ totalPossible s
    ∧ ∃ stats, calculateStats s = some stats
        ∧ 0 ≤ stats.accuracy ∧ stats.accuracy ≤ 100
        ∧ (totalPossible s = 0 → stats.accuracy = 0) := by
  refine ⟨by rw [totalPossible]; omega, _, calculateStats_eq s st et h1 h2, ?_, ?_, ?_⟩
  · show (0 : Int) ≤ if totalPossible s > 0 then _ else 0
    by_cases htot : totalPossible s > 0
    · rw [if_pos htot]
      have h0 := round_le_round
        (show (0 : ℚ) ≤ (((tally s.words s.currentWordIndex).correct
            + s.currentWordIndex : Nat) : ℚ) / ((totalPossible s : Nat) : ℚ) * 100 by positivity)
      rwa [round_zero] at h0
    · rw [if_neg htot]
  · show (if totalPossible s > 0 then _ else (0 : Int)) ≤ 100
    by_cases htot : totalPossible s > 0
    · rw [if_pos htot]
      have hnum : (tally s.words s.currentWordIndex).correct + s.currentWordIndex
          ≤ totalPossible s := by rw [totalPossible]; omega
      have hx : (((tally s.words s.currentWordIndex).correct
            + s.currentWordIndex : Nat) : ℚ) / ((totalPossible s : Nat) : ℚ) * 100
          ≤ (100 : ℚ) := by
        have htotQ : (0 : ℚ) < ((totalPossible s : Nat) : ℚ) := by exact_mod_cast htot
        rw [div_mul_eq_mul_div, div_le_iff₀ htotQ]
        have hq : (((tally s.words s.currentWordIndex).correct
            + s.currentWordIndex : Nat) : ℚ) ≤ ((totalPossible s : Nat) : ℚ) :=
          Nat.cast_le.mpr hnum
        nlinarith
      calc round ((((tally s.words s.currentWordIndex).correct
              + s.currentWordIndex : Nat) : ℚ) / ((totalPossible s : Nat) : ℚ) * 100)
            ≤ round ((100 : ℚ)) := round_le_round hx
        _ = 100 := by norm_num
    · rw [if_neg htot]
      norm_num
  · intro h0
    show (if totalPossible s > 0 then _ else (0 : Int)) = 0
    rw [if_neg (by omega)]

/-- Witness for C5 at a concrete finished session. -/
theorem accuracy_in_range_witness :
    (tally sampleErr.words sampleErr.currentWordIndex).correct + sampleErr.currentWordIndex
        ≤ totalPossible sampleErr
    ∧ ∃ stats, calculateStats sampleErr = some stats
        ∧ 0 ≤ stats.accuracy ∧ stats.accuracy ≤ 100
        ∧ (totalPossible sampleErr = 0 → stats.accuracy = 0) :=
  accuracy_in_range sampleErr 0 6000 rfl rfl

/-- Claim C6: for a finished session with positive duration,
`wpm ≤ rawWpm` (the raw numerator adds the incorrect and extra counts
to the standard numerator over the same duration). -/
theorem wpm_le_rawWpm (s : Session) (st et : Int)
    (h1 : s.startTime = some st) (h2 : s.endTime = some et)
    (hdur : 0 < durationInMinutes s st et) :
    ∃ stats, calculateStats s = some stats ∧ stats.wpm ≤ stats.rawWpm := by
  refine ⟨_, calculateStats_eq s st et h1 h2, ?_⟩
  show round _ ≤ round _
  refine round_le_round ?_
  have hnum : ((((tally s.words s.currentWordIndex).correct + s.currentWordIndex : Nat)) : ℚ)
      ≤ (((tally s.words s.currentWordIndex).correct
          + (tally s.words s.currentWordIndex).incorrect
          + (tally s.words s.currentWordIndex).extra + s.currentWordIndex : Nat) : ℚ) :=
    Nat.cast_le.mpr (by omega)
  exact (div_le_div_iff_of_pos_right hdur).mpr ((div_le_div_iff_of_pos_right (by norm_num : (0:ℚ) < 5)).mpr hnum)

/-- Witness for C6 at a concrete finished session with one incorrect
letter. -/
theorem wpm_le_rawWpm_witness :
    0 < durationInMinutes sampleErr 0 6000
    ∧ ∃ stats, calculateStats sampleErr = some stats ∧ stats.wpm ≤ stats.rawWpm :=
  ⟨by
    rw [durationInMinutes, sampleErr, if_neg (show ¬ (TestMode.words = TestMode.time) by decide)]
    norm_num,
   wpm_le_rawWpm sampleErr 0 6000 rfl rfl
     (by
       rw [durationInMinutes, sampleErr,
         if_neg (show ¬ (TestMode.words = TestMode.time) by decide)]
       norm_num)⟩

/-!
Keystroke handling (`handleKeyDown`, `resetTest`, `endTest`, the
countdown interval) as pure transitions on `Session`.  Randomness
(`getNewWords`) enters as arbitrary fresh word lists, the keyboard
layout (`phoneticMap`) as a lookup function parameter.
-/

/-- A keyboard event delivered to the typing input: Tab, Space,
Backspace, or a printable key (`e.key.length === 1` and not a space). -/
inductive Key where
  | tab
  | space
  | backspace
  | char (c : Char)
deriving DecidableEq, Repr

/-- JS assignment `letters[i].status = st`: update the status of the
element at index `i`, no-op when out of range. -/
def setLetterStatus : List Letter → Nat → LetterStatus → List Letter
  | [], _, _ => []
  | l :: ls, 0, st => { l with status := st } :: ls
  | l :: ls, i + 1, st => l :: setLetterStatus ls i st

/-- `endTest`: record the end timestamp and mark the test finished.
(The interval clearing is implicit here; `timerTick` checks
`isFinished`.) -/
def endTest (now : Int) (s : Session) : Session :=
  { s with endTime := some now, isFinished := true }

/-- `resetTest`: install a fresh word sample and clear the game state;
mode, config and window focus stay as they are. -/
def resetTest (s : Session) (fresh : List Word) : Session :=
  { s with words := fresh, currentWordIndex := 0, currentLetterIndex := 0,
           inputValue := [], startTime := Option.none, endTime := Option.none,
           isFinished := false,
           timeLeft := if s.testMode = .time then s.testConfig else 0 }

/-- `handleKeyDown`.  `pm` is the `phoneticMap` lookup (a key absent
from the table passes through unchanged), `now` the timestamp, `fresh`
the `getNewWords` sample a Tab restart would install and `more` the
batch appended in time mode near the end of the word list.  Index
arithmetic (`testConfig - 1`, `words.length - 20`) is over ℤ as in
JavaScript; out-of-range access to `words[currentWordIndex]` is a
no-op. -/
def handleKeyDown (pm : Char → Option Char) (now : Int) (fresh more : List Word)
    (s : Session) (k : Key) : Session :=
  if s.isFinished then s
  else if k = .tab then resetTest s fresh
  else if !s.isFocused then s
  else
    let s1 := match k with
      | .char _ => if s.startTime = Option.none then { s with startTime := some now } else s
      | _ => s
    match k with
    | .tab => s1
    | .space =>
      if s1.inputValue.length > 0 then
        if s1.testMode = .words ∧ (s1.currentWordIndex : Int) = (s1.testConfig : Int) - 1 then
          endTest now s1
        else
          let s2 := if s1.testMode = .time
              ∧ (s1.currentWordIndex : Int) > (s1.words.length : Int) - 20 then
            { s1 with words := s1.words ++ more } else s1
          { s2 with currentWordIndex := s2.currentWordIndex + 1,
                    currentLetterIndex := 0, inputValue := [] }
      else s1
    | .backspace =>
      if s1.inputValue.length > 0 then
        match s1.words[s1.currentWordIndex]? with
        | some w =>
          let w1 := if s1.inputValue.length > w.original.length
            then { w with letters := w.letters.dropLast }
            else { w with letters := setLetterStatus w.letters (s1.inputValue.length - 1) .none }
          { s1 with inputValue := s1.inputValue.dropLast,
                    words := s1.words.set s1.currentWordIndex w1,
                    currentLetterIndex := s1.currentLetterIndex - 1 }
        | none => s1
      else s1
    | .char c =>
      match s1.words[s1.currentWordIndex]? with
      | some w =>
        let mapped := (pm c).getD c
        let newValue := s1.inputValue ++ [mapped]
        let typedIdx := s1.inputValue.length
        let w1 := if typedIdx < w.original.length then
            { w with letters := setLetterStatus w.letters typedIdx
                                  (if w.original[typedIdx]? = some mapped then .correct
                                   else .incorrect) }
          else { w with letters := w.letters ++ [⟨mapped, .extra⟩] }
        let s2 := { s1 with inputValue := newValue,
                            words := s1.words.set s1.currentWordIndex w1,
                            currentLetterIndex := newValue.length }
        if s2.testMode = .words ∧ (s2.currentWordIndex : Int) = (s2.testConfig : Int) - 1
            ∧ newValue = w.original then
          endTest now s2
        else s2
      | none => s1

/-- One tick of the one-second countdown: the interval is mounted only
while `startTime && testMode === 'time' && !isFinished`; at
`timeLeft ≤ 1` it ends the test and clamps the counter to zero. -/
def timerTick (now : Int) (s : Session) : Session :=
  if s.startTime ≠ Option.none ∧ s.testMode = .time ∧ s.isFinished = false then
    if s.timeLeft ≤ 1 then { endTest now s with timeLeft := 0 }
    else { s with timeLeft := s.timeLeft - 1 }
  else s

/-- The state after the mount-time `resetTest` for a given mode and
config: a fresh sample, cleared cursors and timestamps, focused. -/
def initSession (mode : TestMode) (config : Nat) (fresh : List Word) : Session :=
  ⟨mode, config, fresh, 0, 0, [], Option.none, Option.none,
   if mode = .time then config else 0, false, true⟩

/-- A word as produced by `getNewWords`: letters mirror the original
characters with status `none`. -/
def wordFresh (w : Word) : Prop :=
  w.letters = w.original.map fun c => ⟨c, .none⟩

/-- Every word of a `getNewWords` sample is fresh. -/
def freshList (ws : List Word) : Prop := ∀ w ∈ ws, wordFresh w

instance (w : Word) : Decidable (wordFresh w) :=
  decidable_of_iff (w.letters = w.original.map fun c => ⟨c, .none⟩) Iff.rfl

instance (ws : List Word) : Decidable (freshList ws) :=
  List.decidableBAll _ ws

/-- One event processed by the app: a keystroke (with arbitrary
timestamp and arbitrary fresh samples for restart and append), a
countdown tick, or a window blur / focus change. -/
inductive Step (pm : Char → Option Char) : Session → Session → Prop
  | key (s : Session) (now : Int) (fresh more : List Word) (k : Key)
      (hf : freshList fresh) (hm : freshList more) :
      Step pm s (handleKeyDown pm now fresh more s k)
  | tick (s : Session) (now : Int) : Step pm s (timerTick now s)
  | blur (s : Session) : Step pm s { s with isFocused := false }
  | focus (s : Session) : Step pm s { s with isFocused := true }

/-- Session states reachable from a freshly reset test under
keystrokes, ticks and focus changes.  Mode and config changes and the
on-screen restart button re-run `resetTest`, i.e. restart from an
`initSession`. -/
inductive Reachable (pm : Char → Option Char) : Session → Prop
  | init (mode : TestMode) (config : Nat) (fresh : List Word) (hf : freshList fresh) :
      Reachable pm (initSession mode config fresh)
  | step {s t : Session} : Reachable pm s → Step pm s t → Reachable pm t

/-- A reachable Finished session: one word "a" in words mode with
config 1, finished by the auto-completion of its only letter. -/
def sampleFin : Session :=
  handleKeyDown (fun _ => Option.none) 0 [] []
    (initSession .words 1 [⟨['a'], [⟨'a', .none⟩]⟩]) (.char 'a')

/-- Counterexample to claim C4 as stated: in a reachable Finished
session a Tab keystroke does not restart — `handleKeyDown` returns on
its `isFinished` guard before the Tab branch, leaving the state
Finished instead of resetting it to Idle. -/
theorem tab_ignored_when_finished_cex :
    Reachable (fun _ => Option.none) sampleFin
    ∧ sampleFin.isFinished = true
    ∧ handleKeyDown (fun _ => Option.none) 5 [] [] sampleFin .tab = sampleFin
    ∧ (handleKeyDown (fun _ => Option.none) 5 [] [] sampleFin .tab).isFinished = true :=
  ⟨Reachable.step
      (Reachable.init .words 1 [⟨['a'], [⟨'a', .none⟩]⟩] (by decide))
      (Step.key _ 0 [] [] (.char 'a') (by decide) (by decide)),
   by decide, by decide, by decide⟩

/-- Claim C4 amended: a Tab keystroke in any unfinished state (Idle or
Running, focused or not) performs the full `resetTest`, producing an
Idle session with a fresh sample; in the Finished state the key handler
ignores Tab and restart is available only through the on-screen
button. -/
theorem tab_restarts_unless_finished (pm : Char → Option Char) (now : Int)
    (fresh more : List Word) (s : Session) (h : s.isFinished = false) :
    handleKeyDown pm now fresh more s .tab = resetTest s fresh
    ∧ (resetTest s fresh).startTime = Option.none
    ∧ (resetTest s fresh).isFinished = false := by
  refine ⟨?_, rfl, rfl⟩
  simp [handleKeyDown, h]

/-- Witness for C4 (amended) at a concrete Idle session. -/
theorem tab_restarts_unless_finished_witness :
    handleKeyDown (fun _ => Option.none) 0 [] []
        (initSession .words 1 [⟨['a'], [⟨'a', .none⟩]⟩]) .tab
      = resetTest (initSession .words 1 [⟨['a'], [⟨'a', .none⟩]⟩]) []
    ∧ (resetTest (initSession .words 1 [⟨['a'], [⟨'a', .none⟩]⟩]) []).startTime = Option.none
    ∧ (resetTest (initSession .words 1 [⟨['a'], [⟨'a', .none⟩]⟩]) []).isFinished = false :=
  tab_restarts_unless_finished (fun _ => Option.none) 0 [] []
    (initSession .words 1 [⟨['a'], [⟨'a', .none⟩]⟩]) rfl

/-- Claim C8: in words mode an unfinished session transitions to
Finished by a keystroke exactly when the cursor is on the last
configured word (index `testConfig - 1` over ℤ) and either a space is
pressed with a non-empty typed buffer, or a printable keystroke makes
the typed buffer exactly equal that word's original text; an unfocused
keystroke commits nothing, and the countdown tick never fires in words
mode.  In particular no keystroke sequence finishes before the cursor
reaches the last configured word. -/
theorem words_mode_finish_iff (pm : Char → Option Char) (now tnow : Int)
    (fresh more : List Word) (s : Session) (k : Key)
    (hmode : s.testMode = .words) (hnf : s.isFinished = false) :
    ((handleKeyDown pm now fresh more s k).isFinished = true ↔
      s.isFocused = true
      ∧ ((k = .space ∧ s.inputValue ≠ []
            ∧ (s.currentWordIndex : Int) = (s.testConfig : Int) - 1)
        ∨ (∃ c w, k = .char c ∧ s.words[s.currentWordIndex]? = some w
            ∧ (s.currentWordIndex : Int) = (s.testConfig : Int) - 1
            ∧ s.inputValue ++ [(pm c).getD c] = w.original)))
    ∧ (timerTick tnow s).isFinished = false := by
  refine ⟨?_, by simp [timerTick, hmode, hnf]⟩
  obtain hfoc | hfoc := Bool.eq_false_or_eq_true s.isFocused
  · cases k with
    | tab => simp [handleKeyDown, hnf, hfoc, resetTest]
    | space =>
      by_cases hin : s.inputValue = []
      · simp [handleKeyDown, hnf, hfoc, hin]
      · by_cases hci : (s.currentWordIndex : Int) = (s.testConfig : Int) - 1
        · simp [handleKeyDown, hnf, hfoc, hin, hci, hmode, endTest, List.length_pos]
        · simp [handleKeyDown, hnf, hfoc, hin, hci, hmode, List.length_pos]
    | backspace =>
      rcases hw : s.words[s.currentWordIndex]? with _ | w <;>
        by_cases hin : s.inputValue = [] <;>
          simp [handleKeyDown, hnf, hfoc, hin, hw, List.length_pos]
    | char c =>
      rcases hw : s.words[s.currentWordIndex]? with _ | w
      · by_cases hst : s.startTime = Option.none <;>
          simp [handleKeyDown, hnf, hfoc, hst, hw]
      · by_cases hci : (s.currentWordIndex : Int) = (s.testConfig : Int) - 1 <;>
          by_cases heq : s.inputValue ++ [(pm c).getD c] = w.original <;>
            by_cases hst : s.startTime = Option.none <;>
              simp [handleKeyDown, hnf, hfoc, hst, hw, hci, heq, hmode, endTest]
  · cases k with
    | tab => simp [handleKeyDown, hnf, hfoc, resetTest]
    | space => simp [handleKeyDown, hnf, hfoc]
    | backspace => simp [handleKeyDown, hnf, hfoc]
    | char c => simp [handleKeyDown, hnf, hfoc]

/-- Witness for C8: on a one-word session the printable key completing
the only configured word finishes the test by auto-completion. -/
theorem words_mode_finish_iff_witness :
    (handleKeyDown (fun _ => Option.none) 0 [] []
        (initSession .words 1 [⟨['a'], [⟨'a', .none⟩]⟩]) (.char 'a')).isFinished = true :=
  (words_mode_finish_iff (fun _ => Option.none) 0 0 [] []
      (initSession .words 1 [⟨['a'], [⟨'a', .none⟩]⟩]) (.char 'a') rfl rfl).1.mpr
    ⟨rfl, Or.inr ⟨'a', ⟨['a'], [⟨'a', .none⟩]⟩, rfl, rfl, by decide, by decide⟩⟩

lemma setLetterStatus_length (ls : List Letter) (i : Nat) (st : LetterStatus) :
    (setLetterStatus ls i st).length = ls.length := by
  induction ls generalizing i with
  | nil => rfl
  | cons l ls ih => cases i <;> simp [setLetterStatus, ih]

lemma setLetterStatus_getElem?_ne (ls : List Letter) (i j : Nat) (st : LetterStatus)
    (h : i ≠ j) : (setLetterStatus ls i st)[j]? = ls[j]? := by
  induction ls generalizing i j with
  | nil => rfl
  | cons l ls ih =>
    cases i with
    | zero =>
      cases j with
      | zero => exact absurd rfl h
      | succ j => simp [setLetterStatus]
    | succ i =>
      cases j with
      | zero => simp [setLetterStatus]
      | succ j => simp [setLetterStatus, ih i j (by omega)]

lemma setLetterStatus_getElem?_self (ls : List Letter) (i : Nat) (st : LetterStatus)
    (l : Letter) (h : ls[i]? = some l) :
    (setLetterStatus ls i st)[i]? = some { l with status := st } := by
  induction ls generalizing i with
  | nil => simp at h
  | cons a ls ih =>
    cases i with
    | zero =>
      simp only [List.getElem?_cons_zero, Option.some.injEq] at h
      subst h
      simp [setLetterStatus]
    | succ i =>
      simp only [List.getElem?_cons_succ] at h
      simp [setLetterStatus, ih i h]

lemma setLetterStatus_setLetterStatus (ls : List Letter) (i : Nat) (s1 s2 : LetterStatus) :
    setLetterStatus (setLetterStatus ls i s1) i s2 = setLetterStatus ls i s2 := by
  induction ls generalizing i with
  | nil => rfl
  | cons l ls ih => cases i <;> simp [setLetterStatus, ih]

lemma setLetterStatus_eq_self (ls : List Letter) (i : Nat) (st : LetterStatus)
    (l : Letter) (h : ls[i]? = some l) (hst : l.status = st) :
    setLetterStatus ls i st = ls := by
  induction ls generalizing i with
  | nil => rfl
  | cons a ls ih =>
    cases i with
    | zero =>
      simp only [List.getElem?_cons_zero, Option.some.injEq] at h
      subst h
      rw [setLetterStatus, ← hst]
    | succ i =>
      simp only [List.getElem?_cons_succ] at h
      rw [setLetterStatus, ih i h]

lemma set_getElem?_self {α : Type} (l : List α) (i : Nat) (a : α)
    (h : l[i]? = some a) : l.set i a = l := by
  induction l generalizing i with
  | nil => rfl
  | cons b l ih =>
    cases i with
    | zero =>
      simp only [List.getElem?_cons_zero, Option.some.injEq] at h
      rw [List.set_cons_zero, h]
    | succ i =>
      simp only [List.getElem?_cons_succ] at h
      rw [List.set_cons_succ, ih i h]

/-- The current-word half of the reachability invariant: the letters
array has exactly `max original.length buf` entries and is untouched
(status `none`) from position `buf` on. -/
def WordOpen (w : Word) (buf : Nat) : Prop :=
  w.letters.length = max w.original.length buf
  ∧ ∀ i l, buf ≤ i → w.letters[i]? = some l → l.status = .none

/-- Invariant of reachable sessions: the letter cursor equals the
typed-buffer length, the current word is `WordOpen` for the buffer, and
every word after the cursor is still a fresh sample. -/
def Inv (s : Session) : Prop :=
  s.currentLetterIndex = s.inputValue.length
  ∧ (∀ w, s.words[s.currentWordIndex]? = some w → WordOpen w s.inputValue.length)
  ∧ (∀ j w, s.currentWordIndex < j → s.words[j]? = some w → wordFresh w)

lemma wordFresh_open (w : Word) (h : wordFresh w) : WordOpen w 0 := by
  rw [wordFresh] at h
  refine ⟨by rw [h]; simp, ?_⟩
  intro i l _ hl
  rw [h, List.getElem?_map] at hl
  obtain ⟨c, _, hc⟩ := Option.map_eq_some'.mp hl
  rw [← hc]

lemma inv_resetTest (s : Session) (fresh : List Word) (hf : freshList fresh) :
    Inv (resetTest s fresh) := by
  refine ⟨rfl, ?_, ?_⟩
  · intro w hw
    exact wordFresh_open w (hf w (List.getElem?_mem hw))
  · intro j w _ hw
    exact hf w (List.getElem?_mem hw)

lemma inv_initSession (mode : TestMode) (config : Nat) (fresh : List Word)
    (hf : freshList fresh) : Inv (initSession mode config fresh) := by
  refine ⟨rfl, ?_, ?_⟩
  · intro w hw
    exact wordFresh_open w (hf w (List.getElem?_mem hw))
  · intro j w _ hw
    exact hf w (List.getElem?_mem hw)

lemma inv_timerTick (now : Int) (s : Session) (hs : Inv s) : Inv (timerTick now s) := by
  obtain ⟨h1, h2, h3⟩ := hs
  rw [timerTick]
  split
  · split
    · exact ⟨h1, h2, h3⟩
    · exact ⟨h1, h2, h3⟩
  · exact ⟨h1, h2, h3⟩


lemma inv_handleKeyDown (pm : Char → Option Char) (now : Int) (fresh more : List Word)
    (s : Session) (k : Key) (hs : Inv s) (hf : freshList fresh) (hm : freshList more) :
    Inv (handleKeyDown pm now fresh more s k) := by
  obtain ⟨h1, h2, h3⟩ := hs
  by_cases hfin : s.isFinished
  · simp only [handleKeyDown, if_pos hfin]
    exact ⟨h1, h2, h3⟩
  by_cases htab : k = .tab
  · subst htab
    simp [handleKeyDown, hfin]
    exact inv_resetTest s fresh hf
  by_cases hfoc : s.isFocused
  case neg =>
    cases k with
    | tab => exact absurd rfl htab
    | space =>
      simp [handleKeyDown, hfin, hfoc]
      exact ⟨h1, h2, h3⟩
    | backspace =>
      simp [handleKeyDown, hfin, hfoc]
      exact ⟨h1, h2, h3⟩
    | char c =>
      simp [handleKeyDown, hfin, hfoc]
      exact ⟨h1, h2, h3⟩
  cases k with
  | tab => exact absurd rfl htab
  | space =>
    by_cases hin : s.inputValue = []
    · simp [handleKeyDown, hfin, hfoc, hin]
      exact ⟨h1, h2, h3⟩
    · by_cases hci : s.testMode = .words
          ∧ (s.currentWordIndex : Int) = (s.testConfig : Int) - 1
      · simp [handleKeyDown, hfin, hfoc, hin, hci, List.length_pos, endTest]
        exact ⟨h1, h2, h3⟩
      · by_cases hap : s.testMode = .time
            ∧ (s.currentWordIndex : Int) > (s.words.length : Int) - 20
        · simp [handleKeyDown, hfin, hfoc, hin, hci, hap, List.length_pos]
          refine ⟨rfl, ?_, ?_⟩
          · intro w hw
            dsimp only at hw ⊢
            by_cases hj : s.currentWordIndex + 1 < s.words.length
            · rw [List.getElem?_append_left hj] at hw
              exact wordFresh_open w (h3 _ w (Nat.lt_succ_self _) hw)
            · rw [List.getElem?_append_right (by omega)] at hw
              exact wordFresh_open w (hm w (List.getElem?_mem hw))
          · intro j w hj hw
            dsimp only at hj hw
            by_cases hjl : j < s.words.length
            · rw [List.getElem?_append_left hjl] at hw
              exact h3 j w (by omega) hw
            · rw [List.getElem?_append_right (by omega)] at hw
              exact hm w (List.getElem?_mem hw)
        · simp [handleKeyDown, hfin, hfoc, hin, hci, hap, List.length_pos]
          refine ⟨rfl, ?_, ?_⟩
          · intro w hw
            dsimp only at hw ⊢
            exact wordFresh_open w (h3 _ w (Nat.lt_succ_self _) hw)
          · intro j w hj hw
            dsimp only at hj hw
            exact h3 j w (by omega) hw
  | backspace =>
    by_cases hin : s.inputValue = []
    · simp [handleKeyDown, hfin, hfoc, hin]
      exact ⟨h1, h2, h3⟩
    · rcases hw : s.words[s.currentWordIndex]? with _ | w
      · simp [handleKeyDown, hfin, hfoc, hin, hw, List.length_pos]
        exact ⟨h1, h2, h3⟩
      · obtain ⟨hlen, hnone⟩ := h2 w hw
        have hcwi : s.currentWordIndex < s.words.length := by
          rw [List.getElem?_eq_some] at hw
          exact hw.1
        have hn : 1 ≤ s.inputValue.length := by
          rcases hq : s.inputValue with _ | ⟨a, l⟩
          · exact absurd hq hin
          · simp [hq]
        by_cases hgt : s.inputValue.length > w.original.length
        · simp [handleKeyDown, hfin, hfoc, hin, hw, hgt, List.length_pos]
          refine ⟨?_, ?_, ?_⟩
          · dsimp only
            rw [h1, List.length_dropLast]
          · intro w1 hw1
            dsimp only at hw1 ⊢
            rw [List.getElem?_set_eq_of_lt _ hcwi, Option.some.injEq] at hw1
            subst hw1
            refine ⟨?_, ?_⟩
            · dsimp only
              rw [List.length_dropLast, List.length_dropLast, hlen,
                Nat.max_eq_right (by omega), Nat.max_eq_right (by omega)]
            · intro i l hi hl
              dsimp only at hi hl
              have hb := (List.getElem?_eq_some.mp hl).1
              rw [List.length_dropLast, hlen, Nat.max_eq_right (by omega)] at hb
              rw [List.length_dropLast] at hi
              omega
          · intro j w1 hj hw1
            dsimp only at hj hw1
            rw [List.getElem?_set_ne (by omega)] at hw1
            exact h3 j w1 hj hw1
        · simp [handleKeyDown, hfin, hfoc, hin, hw, hgt, List.length_pos]
          refine ⟨?_, ?_, ?_⟩
          · dsimp only
            rw [h1, List.length_dropLast]
          · intro w1 hw1
            dsimp only at hw1 ⊢
            rw [List.getElem?_set_eq_of_lt _ hcwi, Option.some.injEq] at hw1
            subst hw1
            refine ⟨?_, ?_⟩
            · dsimp only
              rw [setLetterStatus_length, List.length_dropLast, hlen,
                Nat.max_eq_left (by omega), Nat.max_eq_left (by omega)]
            · intro i l hi hl
              dsimp only at hi hl
              rw [List.length_dropLast] at hi
              by_cases hieq : i = s.inputValue.length - 1
              · subst hieq
                have hblt : s.inputValue.length - 1 < w.letters.length := by
                  rw [hlen, Nat.max_eq_left (by omega)]
                  omega
                rw [setLetterStatus_getElem?_self w.letters _ _ _
                    (List.getElem?_eq_getElem hblt), Option.some.injEq] at hl
                rw [← hl]
              · rw [setLetterStatus_getElem?_ne _ _ _ _ (by omega)] at hl
                exact hnone i l (by omega) hl
          · intro j w1 hj hw1
            dsimp only at hj hw1
            rw [List.getElem?_set_ne (by omega)] at hw1
            exact h3 j w1 hj hw1
  | char c =>
    rcases hw : s.words[s.currentWordIndex]? with _ | w
    · by_cases hst : s.startTime = Option.none <;>
        simp [handleKeyDown, hfin, hfoc, hst, hw] <;>
        exact ⟨h1, h2, h3⟩
    · obtain ⟨hlen, hnone⟩ := h2 w hw
      have hcwi : s.currentWordIndex < s.words.length := by
        rw [List.getElem?_eq_some] at hw
        exact hw.1
      by_cases hlt : s.inputValue.length < w.original.length
      · by_cases hst : s.startTime = Option.none <;>
          by_cases hend : s.testMode = .words
              ∧ ((s.currentWordIndex : Int) = (s.testConfig : Int) - 1
                ∧ s.inputValue ++ [(pm c).getD c] = w.original) <;>
          simp [handleKeyDown, hfin, hfoc, hst, hw, hlt, endTest] <;>
          (first
            | rw [if_pos hend]
            | rw [if_neg hend]) <;>
          exact ⟨by simp,
            fun w1 hw1 => by
              dsimp only at hw1 ⊢
              rw [List.getElem?_set_eq_of_lt _ hcwi, Option.some.injEq] at hw1
              subst hw1
              refine ⟨?_, ?_⟩
              · dsimp only
                rw [setLetterStatus_length, hlen, Nat.max_eq_left (by omega),
                  List.length_append, List.length_singleton,
                  Nat.max_eq_left (by omega)]
              · intro i l hi hl
                dsimp only at hi hl
                rw [List.length_append, List.length_singleton] at hi
                rw [setLetterStatus_getElem?_ne _ _ _ _ (by omega)] at hl
                exact hnone i l (by omega) hl,
            fun j w1 hj hw1 => by
              dsimp only at hj hw1
              rw [List.getElem?_set_ne (by omega)] at hw1
              exact h3 j w1 hj hw1⟩
      · by_cases hst : s.startTime = Option.none <;>
          by_cases hend : s.testMode = .words
              ∧ ((s.currentWordIndex : Int) = (s.testConfig : Int) - 1
                ∧ s.inputValue ++ [(pm c).getD c] = w.original) <;>
          simp [handleKeyDown, hfin, hfoc, hst, hw, hlt, endTest] <;>
          (first
            | rw [if_pos hend]
            | rw [if_neg hend]) <;>
          exact ⟨by simp,
            fun w1 hw1 => by
              dsimp only at hw1 ⊢
              rw [List.getElem?_set_eq_of_lt _ hcwi, Option.some.injEq] at hw1
              subst hw1
              refine ⟨?_, ?_⟩
              · dsimp only
                rw [List.length_append, List.length_singleton, hlen,
                  Nat.max_eq_right (by omega), List.length_append,
                  List.length_singleton, Nat.max_eq_right (by omega)]
              · intro i l hi hl
                dsimp only at hi hl
                have hb := (List.getElem?_eq_some.mp hl).1
                rw [List.length_append, List.length_singleton, hlen,
                  Nat.max_eq_right (by omega)] at hb
                rw [List.length_append, List.length_singleton] at hi
                omega,
            fun j w1 hj hw1 => by
              dsimp only at hj hw1
              rw [List.getElem?_set_ne (by omega)] at hw1
              exact h3 j w1 hj hw1⟩

/-- Every reachable session satisfies the structural invariant. -/
lemma reachable_inv (pm : Char → Option Char) (s : Session)
    (h : Reachable pm s) : Inv s := by
  induction h with
  | init mode config fresh hf => exact inv_initSession mode config fresh hf
  | step hr hstep ih =>
    cases hstep with
    | key now fresh more k hf hm => exact inv_handleKeyDown pm now fresh more _ k ih hf hm
    | tick now => exact inv_timerTick now _ ih
    | blur => exact ⟨ih.1, ih.2.1, ih.2.2⟩
    | focus => exact ⟨ih.1, ih.2.1, ih.2.2⟩

/-- A reachable Running session on the last letter of the last
configured word: the word "ab" with "a" already typed. -/
def sampleMid : Session :=
  handleKeyDown (fun _ => Option.none) 0 [] []
    (initSession .words 1 [⟨['a', 'b'], [⟨'a', .none⟩, ⟨'b', .none⟩]⟩]) (.char 'a')

/-- Counterexample to claim C7 as stated: from the reachable Running
state `sampleMid`, typing the final letter auto-completes the last word
and finishes the session, so the following Backspace is ignored by the
`isFinished` guard — buffer, cursor and letters stay at their
post-keystroke values instead of reverting. -/
theorem backspace_not_inverse_after_autoend_cex :
    Reachable (fun _ => Option.none) sampleMid
    ∧ sampleMid.isFinished = false ∧ sampleMid.startTime = some 0
    ∧ (handleKeyDown (fun _ => Option.none) 2 [] []
        (handleKeyDown (fun _ => Option.none) 1 [] [] sampleMid (.char 'b'))
        .backspace).inputValue ≠ sampleMid.inputValue :=
  ⟨Reachable.step
      (Reachable.init .words 1 [⟨['a', 'b'], [⟨'a', .none⟩, ⟨'b', .none⟩]⟩] (by decide))
      (Step.key _ 0 [] [] (.char 'a') (by decide) (by decide)),
   by decide, by decide, by decide⟩


/-- Claim C7 amended: for every reachable Running session state, if the
printable keystroke does not finish the session (words-mode
auto-completion), the following Backspace exactly inverts it: the words
array (hence the current Word's letters), the typed buffer and the
letter cursor return to their prior values.  When the keystroke does
finish the session, Backspace is ignored by the `isFinished` guard. -/
theorem backspace_inverts_keystroke (pm : Char → Option Char)
    (s : Session) (hr : Reachable pm s) (hnf : s.isFinished = false)
    (c : Char) (n1 n2 : Int) (f1 m1 f2 m2 : List Word)
    (hff : (handleKeyDown pm n1 f1 m1 s (.char c)).isFinished = false) :
    (handleKeyDown pm n2 f2 m2 (handleKeyDown pm n1 f1 m1 s (.char c)) .backspace).words
        = s.words
    ∧ (handleKeyDown pm n2 f2 m2 (handleKeyDown pm n1 f1 m1 s (.char c)) .backspace).inputValue
        = s.inputValue
    ∧ (handleKeyDown pm n2 f2 m2
          (handleKeyDown pm n1 f1 m1 s (.char c)) .backspace).currentLetterIndex
        = s.currentLetterIndex := by
  obtain ⟨h1, h2, h3⟩ := reachable_inv pm s hr
  by_cases hfoc : s.isFocused
  case neg =>
    have hchar : handleKeyDown pm n1 f1 m1 s (.char c) = s := by
      simp [handleKeyDown, hnf, hfoc]
    have hback : handleKeyDown pm n2 f2 m2 s .backspace = s := by
      simp [handleKeyDown, hnf, hfoc]
    rw [hchar, hback]
    exact ⟨rfl, rfl, rfl⟩
  rcases hw : s.words[s.currentWordIndex]? with _ | w
  · have hchar : handleKeyDown pm n1 f1 m1 s (.char c)
        = if s.startTime = Option.none then { s with startTime := some n1 } else s := by
      by_cases hst : s.startTime = Option.none <;>
        simp [handleKeyDown, hnf, hfoc, hst, hw]
    rw [hchar]
    by_cases hst : s.startTime = Option.none <;>
      by_cases hin : s.inputValue = [] <;>
        simp [handleKeyDown, hnf, hfoc, hst, hin, hw, List.length_pos]
  · obtain ⟨hlen, hnone⟩ := h2 w hw
    have hcwi : s.currentWordIndex < s.words.length := by
      rw [List.getElem?_eq_some] at hw
      exact hw.1
    have hend : ¬ (s.testMode = .words
        ∧ ((s.currentWordIndex : Int) = (s.testConfig : Int) - 1
          ∧ s.inputValue ++ [(pm c).getD c] = w.original)) := by
      intro hcond
      have hfin1 : (handleKeyDown pm n1 f1 m1 s (.char c)).isFinished = true := by
        by_cases hst : s.startTime = Option.none <;>
          by_cases hlt : s.inputValue.length < w.original.length <;>
          simp [handleKeyDown, hnf, hfoc, hst, hw, hlt, endTest] <;>
          rw [if_pos hcond]
      rw [hff] at hfin1
      exact absurd hfin1 (by simp)
    by_cases hlt : s.inputValue.length < w.original.length
    · have hchar : handleKeyDown pm n1 f1 m1 s (.char c)
          = { s with startTime := if s.startTime = Option.none then some n1 else s.startTime,
                     inputValue := s.inputValue ++ [(pm c).getD c],
                     words := s.words.set s.currentWordIndex
                       { w with letters := setLetterStatus w.letters s.inputValue.length
                                             (if w.original[s.inputValue.length]?
                                                 = some ((pm c).getD c)
                                              then LetterStatus.correct
                                              else LetterStatus.incorrect) },
                     currentLetterIndex := s.inputValue.length + 1 } := by
        by_cases hst : s.startTime = Option.none <;>
          simp [handleKeyDown, hnf, hfoc, hst, hw, hlt] <;>
          (intro ha hb hc; exact absurd ⟨ha, hb, hc⟩ hend)
      have hw1get : (s.words.set s.currentWordIndex
          { w with letters := setLetterStatus w.letters s.inputValue.length
                                (if w.original[s.inputValue.length]? = some ((pm c).getD c)
                                 then LetterStatus.correct
                                 else LetterStatus.incorrect) })[s.currentWordIndex]?
          = some { w with letters := setLetterStatus w.letters s.inputValue.length
                            (if w.original[s.inputValue.length]? = some ((pm c).getD c)
                             then LetterStatus.correct
                             else LetterStatus.incorrect) } :=
        List.getElem?_set_eq_of_lt _ hcwi
      have hn2 : ¬ (s.inputValue.length + 1 > w.original.length) := by omega
      have hblt : s.inputValue.length < w.letters.length := by
        rw [hlen]; omega
      have hcollapse : setLetterStatus (setLetterStatus w.letters s.inputValue.length
            (if w.original[s.inputValue.length]? = some ((pm c).getD c)
             then LetterStatus.correct else LetterStatus.incorrect))
            s.inputValue.length LetterStatus.none = w.letters := by
        rw [setLetterStatus_setLetterStatus]
        exact setLetterStatus_eq_self w.letters _ _ _
          (List.getElem?_eq_getElem hblt)
          (hnone _ _ le_rfl (List.getElem?_eq_getElem hblt))
      rw [hchar]
      refine ⟨?_, ?_, ?_⟩
      · simp [handleKeyDown, hnf, hfoc, hw1get, hn2, hcollapse]
        rw [set_getElem?_self _ _ _ hw]
      · simp [handleKeyDown, hnf, hfoc, hw1get, hn2]
      · simp [handleKeyDown, hnf, hfoc, hw1get, hn2, h1]
    · have hchar : handleKeyDown pm n1 f1 m1 s (.char c)
          = { s with startTime := if s.startTime = Option.none then some n1 else s.startTime,
                     inputValue := s.inputValue ++ [(pm c).getD c],
                     words := s.words.set s.currentWordIndex
                       { w with letters := w.letters ++ [⟨(pm c).getD c, .extra⟩] },
                     currentLetterIndex := s.inputValue.length + 1 } := by
        by_cases hst : s.startTime = Option.none <;>
          simp [handleKeyDown, hnf, hfoc, hst, hw, hlt] <;>
          (intro ha hb hc; exact absurd ⟨ha, hb, hc⟩ hend)
      have hw1get : (s.words.set s.currentWordIndex
          { w with letters := w.letters ++ [⟨(pm c).getD c, .extra⟩] })[s.currentWordIndex]?
          = some { w with letters := w.letters ++ [⟨(pm c).getD c, .extra⟩] } :=
        List.getElem?_set_eq_of_lt _ hcwi
      have hg2 : s.inputValue.length + 1 > w.original.length := by omega
      rw [hchar]
      refine ⟨?_, ?_, ?_⟩
      · simp [handleKeyDown, hnf, hfoc, hw1get, hg2]
        rw [set_getElem?_self _ _ _ hw]
      · simp [handleKeyDown, hnf, hfoc, hw1get, hg2]
      · simp [handleKeyDown, hnf, hfoc, hw1get, hg2, h1]

/-- Witness for C7 (amended): from the reachable Running state
`sampleMid`, typing a wrong letter and backspacing restores the words,
the buffer and the cursor. -/
theorem backspace_inverts_keystroke_witness :
    (handleKeyDown (fun _ => Option.none) 2 [] []
        (handleKeyDown (fun _ => Option.none) 1 [] [] sampleMid (.char 'x')) .backspace).words
        = sampleMid.words
    ∧ (handleKeyDown (fun _ => Option.none) 2 [] []
        (handleKeyDown (fun _ => Option.none) 1 [] [] sampleMid (.char 'x')) .backspace).inputValue
        = sampleMid.inputValue
    ∧ (handleKeyDown (fun _ => Option.none) 2 [] []
        (handleKeyDown (fun _ => Option.none) 1 [] [] sampleMid (.char 'x'))
          .backspace).currentLetterIndex
        = sampleMid.currentLetterIndex :=
  backspace_inverts_keystroke (fun _ => Option.none) sampleMid
    (Reachable.step
      (Reachable.init .words 1 [⟨['a', 'b'], [⟨'a', .none⟩, ⟨'b', .none⟩]⟩] (by decide))
      (Step.key _ 0 [] [] (.char 'a') (by decide) (by decide)))
    (by decide) 'x' 1 2 [] [] [] [] (by decide)

end Makunu
